import Mathlib

/-
Verification of the iterative benchmarking harness (src/app/bfs.cpp and
src/inc/harness.h) via a shallow embedding in Lean 4.

Byte buffers (std::vector<char>) are modelled as List Nat of byte values;
reinterpreting a byte buffer as a vector of 4-byte integers is modelled by
grouping consecutive 4-byte chunks little-endian, truncating a trailing
incomplete chunk, exactly as input.size() / sizeof(int) truncates.
Equality of the reinterpreted int values coincides with equality of these
encodings, so strict int equality is faithfully modelled by Nat equality
of the encodings.

The accelerator kernel is opaque (spec section 1): it is modelled as an
arbitrary function K from the byte contents of the device input buffer to
the byte contents of the device output buffer, read back into the host
shadow after each launch. Device timing is opaque too, modelled as an
arbitrary function from iteration index to nanoseconds.
-/

namespace SpmvHarness

/-- Reinterpret a byte buffer as a vector of 4-byte integers, as done by
reinterpret_cast<int *> together with size() / sizeof(int) in
HarnessBFS::should_terminate_iteration and Harness::check_result:
consecutive 4-byte groups, any trailing incomplete group dropped. -/
def toInts : List Nat → List Nat
  | b0 :: b1 :: b2 :: b3 :: rest =>
      (b0 + 256 * (b1 + 256 * (b2 + 256 * b3))) :: toInts rest
  | _ => []

/-- The comparison loop of HarnessBFS::should_terminate_iteration
(src/app/bfs.cpp lines 158-165): starts with equal = true, walks both int
vectors while equal holds and both indices are in range, and conjoins
strict equality of the paired elements; exits early on the first
mismatch. -/
def eqLoop : List Nat → List Nat → Bool
  | x :: xs, y :: ys => if x = y then eqLoop xs ys else false
  | _, _ => true

/-- HarnessBFS::should_terminate_iteration (src/app/bfs.cpp lines
148-168): reinterpret both host shadow byte buffers as int vectors and
compare them elementwise with strict equality up to the shorter length.
The commented-out delta comparison in the source is not executed, so no
tolerance is applied. The verdict is a function of the two byte buffers
and of nothing else. -/
def should_terminate_iteration (input output : List Nat) : Bool :=
  eqLoop (toInts input) (toInts output)

/-- Correctness verdicts, from the Correctness enum used by
Harness::check_result. -/
inductive Correctness
  | NOT_CHECKED
  | CORRECT
  | BAD_LENGTH
  | BAD_VALUES
deriving DecidableEq, Repr

/-- Record kinds carried by SqlStat values constructed in bfs.cpp:
RAW_RESULT per iteration, MEDIAN_RESULT and MULTI_ITERATION_SUM appended
per trial. -/
inductive StatKind
  | RAW_RESULT
  | MEDIAN_RESULT
  | MULTI_ITERATION_SUM
deriving DecidableEq, Repr

/-- Run work-shape descriptor; only global1 and local1 are stored into
SqlStat records by bfs.cpp, so only those two fields are modelled. -/
structure Run where
  global1 : Nat
  local1 : Nat
deriving DecidableEq, Repr

/-- Timing record as constructed in bfs.cpp: an elapsed duration in
nanoseconds, a correctness verdict, the work-shape dimensions used, a
record kind, and trial and iteration indices (constructor arguments left
out in the source default to 0 here). -/
structure SqlStat where
  mk ::
  time : Nat
  correctness : Correctness
  global1 : Nat
  local1 : Nat
  kind : StatKind
  trial : Nat
  iteration : Nat
deriving DecidableEq, Repr

/-- Placeholder record used only as the default of List.getD. -/
def dummyStat : SqlStat :=
  SqlStat.mk 0 Correctness.NOT_CHECKED 0 0 StatKind.RAW_RESULT 0 0

/-- Modelled from the spec: SqlStat::compare lives in sql_stat.h, which is
not under src; the spec (section 4.5) sorts each trial raw timing sequence
by duration, so the comparator orders records by ascending time. This
insertion step places a record before the first record of greater or
equal time. -/
def insertByTime (s : SqlStat) : List SqlStat → List SqlStat
  | [] => [s]
  | t :: ts => if s.time ≤ t.time then s :: t :: ts else t :: insertByTime s ts

/-- Modelled from the spec: std::sort(run_runtimes, SqlStat::compare) in
HarnessBFS::benchmark, realised as insertion sort ascending by time (the
claims only depend on the sorted sequence of durations, which any
comparison sort by duration produces). -/
def sortByTime : List SqlStat → List SqlStat
  | [] => []
  | s :: ss => insertByTime s (sortByTime ss)

/-- Insertion step for sorting plain durations ascending. -/
def insertNat (x : Nat) : List Nat → List Nat
  | [] => [x]
  | y :: ys => if x ≤ y then x :: y :: ys else y :: insertNat x ys

/-- Insertion sort of plain durations ascending; the specification-side
notion of the trial durations sorted ascending. -/
def sortNat : List Nat → List Nat
  | [] => []
  | x :: xs => insertNat x (sortNat xs)

/-- Per-trial aggregation, HarnessBFS::benchmark lines 62-77: sort the raw
records by duration, read the median duration at sorted index size / 2,
append a MEDIAN_RESULT record, then accumulate the durations of the list
as it stands at that point (which already contains the median record) and
append a MULTI_ITERATION_SUM record. -/
def benchmarkTrial (run : Run) (t : Nat) (run_runtimes : List SqlStat) : List SqlStat :=
  let sorted := sortByTime run_runtimes
  let median_time := (sorted.getD (sorted.length / 2) dummyStat).time
  let withMedian := sorted ++
    [SqlStat.mk median_time Correctness.NOT_CHECKED run.global1 run.local1
      StatKind.MEDIAN_RESULT t 0]
  let total_time := withMedian.foldl (fun time stat => time + stat.time) 0
  withMedian ++
    [SqlStat.mk total_time Correctness.NOT_CHECKED run.global1 run.local1
      StatKind.MULTI_ITERATION_SUM 0 0]

/-- The do-while loop of HarnessBFS::executeRun (src/app/bfs.cpp lines
101-144), fuelled. Each pass launches the kernel (K maps the input buffer
contents to the output buffer contents read back into the host shadow),
records one RAW_RESULT stat with the current trial and iteration index,
evaluates should_terminate_iteration on the input and the fresh output,
then swaps the input and output roles so the next pass runs the kernel on
the previous output. The loop condition is solely the negation of the
termination check; fuel exhaustion (returning none) models
non-termination within that much fuel, not an exit taken by the code. -/
def executeRunLoop (K : List Nat → List Nat) (times : Nat → Nat) (run : Run)
    (trial : Nat) : Nat → List Nat → Nat → Option (List SqlStat)
  | 0, _, _ => none
  | fuel + 1, input, iteration =>
    let output := K input
    let stat := SqlStat.mk (times iteration) Correctness.NOT_CHECKED run.global1
      run.local1 StatKind.RAW_RESULT trial iteration
    if should_terminate_iteration input output then
      some [stat]
    else
      match executeRunLoop K times run trial fuel output (iteration + 1) with
      | some rest => some (stat :: rest)
      | none => none

/-- Contents of the input-role host shadow at the start of iteration i:
the initial contents with the kernel applied i times (each iteration the
old output, produced by K from the old input, becomes the new input). -/
def traj (K : List Nat → List Nat) (a : List Nat) : Nat → List Nat
  | 0 => a
  | i + 1 => K (traj K a i)

/-- HarnessBFS::benchmark (src/app/bfs.cpp lines 51-86): for each trial,
run executeRun from the reset initial buffers and aggregate with
benchmarkTrial; trials are independent because resetInputs restores the
initial buffer contents. The function takes no gold vector, mirroring the
source signature benchmark(Run run). -/
def benchmark (K : List Nat → List Nat) (times : Nat → Nat → Nat) (run : Run)
    (input0 : List Nat) (fuel : Nat) : Nat → Option (List (List SqlStat))
  | 0 => some []
  | t + 1 =>
    match benchmark K times run input0 fuel t,
          executeRunLoop K (times t) run t fuel input0 0 with
    | some prev, some raw => some (prev ++ [benchmarkTrial run t raw])
    | _, _ => none

/-- Pair of mismatch count and logged mismatch indices for the checking
loop of Harness::check_result (lines 130-141): walk gold and result
elements in step, count mismatches, log each (modelled by its index), and
break once the count reaches 20. -/
def countMismatches : List Nat → List Nat → Nat → Nat → Nat × List Nat
  | g :: gs, r :: rs, count, i =>
    if g ≠ r then
      if count + 1 = 20 then (count + 1, [i])
      else
        let rec_result := countMismatches gs rs (count + 1) (i + 1)
        (rec_result.1, i :: rec_result.2)
    else countMismatches gs rs count (i + 1)
  | _, _, count, _ => (count, [])

/-- Harness::check_result (src/inc/harness.h lines 113-147): NOT_CHECKED
for an empty gold vector; otherwise reinterpret the output host byte
buffer as ints, BAD_LENGTH when it holds fewer elements than gold;
otherwise compare elementwise over the gold positions, logging at most 20
mismatches, and return BAD_VALUES when the mismatch count is positive,
else CORRECT. The second component is the list of logged mismatch
indices. -/
def check_result (gold : List Nat) (output_host_buffer : List Nat) :
    Correctness × List Nat :=
  if gold.length = 0 then (Correctness.NOT_CHECKED, [])
  else
    let res := toInts output_host_buffer
    if res.length < gold.length then (Correctness.BAD_LENGTH, [])
    else
      let checked := countMismatches gold (res.take gold.length) 0 0
      if 0 < checked.1 then (Correctness.BAD_VALUES, checked.2)
      else (Correctness.CORRECT, checked.2)

/-- Harness output argument index: allocateBuffers (src/inc/harness.h
lines 197-250) assigns indices in order 0 matrix idxs, 1 matrix vals, 2 x
vector, 3 y vector, 4 alpha, 5 beta, then records _output_idx = 6 before
binding the output buffer. -/
def output_idx : Nat := 6

/-- Modelled from the spec: _input_idx is a field of the memory manager in
cl_memory_manager.h, which is not under src. The spec fixed layout
(section 4.2) places the input-vector buffer at position 2 of the
argument list, and IterativeHarness::resetInputs rebinds the x vector at
slot 2, so the input index is 2. -/
def input_idx : Nat := 2

/-- The setGlobalArg calls issued after every iteration of the executor
loop (src/app/bfs.cpp lines 138-141): slot input_idx gets the new input
buffer, slot output_idx gets the new output buffer, and slot 3 (the y
vector) also gets the new input buffer. Buffers are identified by handle
values. -/
def iterationRebinds (newInput newOutput : Nat) : List (Nat × Nat) :=
  [(input_idx, newInput), (output_idx, newOutput), (3, newInput)]

/-- Apply a list of setGlobalArg calls, in order, to a kernel argument
assignment (slot index to bound buffer handle). -/
def applyBinds : (Nat → Nat) → List (Nat × Nat) → Nat → Nat
  | args, [], slot => args slot
  | args, b :: bs, slot =>
      applyBinds (fun s => if s = b.1 then b.2 else args s) bs slot

/-- The pointer swap of src/app/bfs.cpp lines 134-135: input and output
role holders exchange identities, not contents. -/
def swapRoles {α : Type} (p : α × α) : α × α := (p.2, p.1)

/-- N successive role swaps. -/
def swapN {α : Type} : Nat → α × α → α × α
  | 0, p => p
  | n + 1, p => swapN n (swapRoles p)

theorem eqLoop_iff (xs : List Nat) : ∀ ys : List Nat,
    eqLoop xs ys = true ↔
      ∀ i, i < min xs.length ys.length → xs.getD i 0 = ys.getD i 0 := by
  induction xs with
  | nil => intro ys; simp [eqLoop]
  | cons x xs ih =>
    intro ys
    cases ys with
    | nil => simp [eqLoop]
    | cons y ys =>
      by_cases hxy : x = y
      · subst hxy
        have hstep : eqLoop (x :: xs) (x :: ys) = eqLoop xs ys := by
          simp [eqLoop]
        rw [hstep, ih ys]
        constructor
        · intro h i hi
          cases i with
          | zero => rfl
          | succ j =>
            simp only [List.getD_cons_succ]
            exact h j (by simpa [Nat.succ_lt_succ_iff, Nat.lt_min] using hi)
        · intro h i hi
          have := h (i + 1) (by simpa [Nat.succ_lt_succ_iff, Nat.lt_min] using hi)
          simpa using this
      · simp only [eqLoop, if_neg hxy]
        constructor
        · intro h; exact absurd h (by simp)
        · intro h
          exfalso
          exact hxy (by simpa using h 0 (by simp [Nat.lt_min]))

theorem perm_insertByTime (s : SqlStat) : ∀ l : List SqlStat,
    (insertByTime s l).Perm (s :: l) := by
  intro l
  induction l with
  | nil => exact List.Perm.refl _
  | cons t ts ih =>
    by_cases h : s.time ≤ t.time
    · rw [insertByTime, if_pos h]
    · rw [insertByTime, if_neg h]
      exact (ih.cons t).trans (List.Perm.swap s t ts)

theorem perm_sortByTime : ∀ l : List SqlStat, (sortByTime l).Perm l := by
  intro l
  induction l with
  | nil => exact List.Perm.refl _
  | cons s ss ih => exact (perm_insertByTime s (sortByTime ss)).trans (ih.cons s)

theorem perm_insertNat (x : Nat) : ∀ l : List Nat, (insertNat x l).Perm (x :: l) := by
  intro l
  induction l with
  | nil => exact List.Perm.refl _
  | cons y ys ih =>
    by_cases h : x ≤ y
    · rw [insertNat, if_pos h]
    · rw [insertNat, if_neg h]
      exact (ih.cons y).trans (List.Perm.swap x y ys)

theorem perm_sortNat : ∀ l : List Nat, (sortNat l).Perm l := by
  intro l
  induction l with
  | nil => exact List.Perm.refl _
  | cons x xs ih => exact (perm_insertNat x (sortNat xs)).trans (ih.cons x)

theorem sorted_insertNat (x : Nat) : ∀ l : List Nat, l.Sorted (· ≤ ·) →
    (insertNat x l).Sorted (· ≤ ·) := by
  intro l
  induction l with
  | nil => intro _; simp [insertNat]
  | cons y ys ih =>
    intro h
    rw [List.sorted_cons] at h
    by_cases hxy : x ≤ y
    · rw [insertNat, if_pos hxy, List.sorted_cons]
      refine ⟨?_, List.sorted_cons.mpr h⟩
      intro b hb
      rcases List.mem_cons.mp hb with rfl | hb2
      · exact hxy
      · exact hxy.trans (h.1 b hb2)
    · rw [insertNat, if_neg hxy, List.sorted_cons]
      refine ⟨?_, ih h.2⟩
      intro b hb
      have hb2 : b ∈ x :: ys := (perm_insertNat x ys).mem_iff.mp hb
      rcases List.mem_cons.mp hb2 with rfl | hb3
      · exact le_of_not_le hxy
      · exact h.1 b hb3

theorem sorted_sortNat : ∀ l : List Nat, (sortNat l).Sorted (· ≤ ·) := by
  intro l
  induction l with
  | nil => simp [sortNat]
  | cons x xs ih => exact sorted_insertNat x (sortNat xs) ih

theorem map_time_insertByTime (s : SqlStat) : ∀ l : List SqlStat,
    (insertByTime s l).map SqlStat.time = insertNat s.time (l.map SqlStat.time) := by
  intro l
  induction l with
  | nil => rfl
  | cons t ts ih =>
    by_cases h : s.time ≤ t.time
    · rw [insertByTime, if_pos h]
      simp [insertNat, h]
    · rw [insertByTime, if_neg h]
      simp only [List.map_cons, ih, insertNat]
      rw [if_neg h]

theorem map_time_sortByTime : ∀ l : List SqlStat,
    (sortByTime l).map SqlStat.time = sortNat (l.map SqlStat.time) := by
  intro l
  induction l with
  | nil => rfl
  | cons s ss ih =>
    simp only [sortByTime, List.map_cons, sortNat, map_time_insertByTime, ih]

theorem getD_time (l : List SqlStat) (i : Nat) (hi : i < l.length) :
    (l.getD i dummyStat).time = (l.map SqlStat.time).getD i 0 := by
  rw [List.getD_eq_getElem l dummyStat hi,
      List.getD_eq_getElem _ 0 (by simpa using hi)]
  simp

theorem getD_append_pair {α : Type} (A : List α) (m s d : α) :
    (A ++ [m, s]).getD A.length d = m ∧ (A ++ [m, s]).getD (A.length + 1) d = s := by
  constructor
  · rw [List.getD_append_right _ _ _ _ (le_refl A.length), Nat.sub_self]
    rfl
  · rw [List.getD_append_right _ _ _ _ (by omega)]
    have h1 : A.length + 1 - A.length = 1 := by omega
    rw [h1]
    rfl

theorem foldl_time (l : List SqlStat) : ∀ a : Nat,
    l.foldl (fun time stat => time + stat.time) a = a + (l.map SqlStat.time).sum := by
  induction l with
  | nil => intro a; simp
  | cons s ss ih =>
    intro a
    simp only [List.foldl_cons, ih, List.map_cons, List.sum_cons]
    omega

/-- Claim C5: for a trial with n raw records, the appended MEDIAN_RESULT
record (at position n of the trial output) carries the duration found at
zero-indexed position n / 2 of the raw durations sorted ascending; no
averaging of middle elements takes place. -/
theorem median_record_correct (run : Run) (t : Nat) (raw : List SqlStat)
    (h : 1 ≤ raw.length) :
    ∃ s : List Nat, s.Perm (raw.map SqlStat.time) ∧ s.Sorted (· ≤ ·) ∧
      (benchmarkTrial run t raw).getD raw.length dummyStat =
        SqlStat.mk (s.getD (raw.length / 2) 0) Correctness.NOT_CHECKED run.global1
          run.local1 StatKind.MEDIAN_RESULT t 0 := by
  have hlen : (sortByTime raw).length = raw.length := (perm_sortByTime raw).length_eq
  refine ⟨sortNat (raw.map SqlStat.time),
    ((perm_sortNat (raw.map SqlStat.time))), sorted_sortNat _, ?_⟩
  have hmid : (sortByTime raw).length / 2 < (sortByTime raw).length := by
    refine Nat.div_lt_self ?_ one_lt_two
    rw [hlen]; exact h
  simp only [benchmarkTrial, List.append_assoc, List.cons_append, List.nil_append]
  rw [← hlen]
  rw [(getD_append_pair (sortByTime raw) _ _ dummyStat).1]
  congr 1
  rw [getD_time _ _ hmid]
  rw [map_time_sortByTime]

/-- Witness for C5 at the concrete spec example: a trial with durations
[5, 1, 3] (sorted [1, 3, 5], median 3 at sorted index 1). -/
theorem median_record_correct_witness :
    ∃ s : List Nat,
      s.Perm ([SqlStat.mk 5 Correctness.NOT_CHECKED 1 1 StatKind.RAW_RESULT 0 0,
               SqlStat.mk 1 Correctness.NOT_CHECKED 1 1 StatKind.RAW_RESULT 0 1,
               SqlStat.mk 3 Correctness.NOT_CHECKED 1 1 StatKind.RAW_RESULT 0 2].map
                SqlStat.time) ∧
      s.Sorted (· ≤ ·) ∧
      (benchmarkTrial (Run.mk 1 1) 0
          [SqlStat.mk 5 Correctness.NOT_CHECKED 1 1 StatKind.RAW_RESULT 0 0,
           SqlStat.mk 1 Correctness.NOT_CHECKED 1 1 StatKind.RAW_RESULT 0 1,
           SqlStat.mk 3 Correctness.NOT_CHECKED 1 1 StatKind.RAW_RESULT 0 2]).getD 3
          dummyStat =
        SqlStat.mk (s.getD 1 0) Correctness.NOT_CHECKED 1 1 StatKind.MEDIAN_RESULT 0 0 :=
  median_record_correct (Run.mk 1 1) 0 _ (by decide)

/-- Claim C2 counterexample: for a trial with raw durations [1, 2] the
median is 2 and the code accumulates the durations after the median
record has been appended, so the recorded sum is 1 + 2 + 2 = 5, not the
raw total 3. -/
theorem sum_record_counterexample :
    ((benchmarkTrial (Run.mk 1 1) 0
        [SqlStat.mk 1 Correctness.NOT_CHECKED 1 1 StatKind.RAW_RESULT 0 0,
         SqlStat.mk 2 Correctness.NOT_CHECKED 1 1 StatKind.RAW_RESULT 0 1]).getD 3
        dummyStat).kind = StatKind.MULTI_ITERATION_SUM ∧
    ((benchmarkTrial (Run.mk 1 1) 0
        [SqlStat.mk 1 Correctness.NOT_CHECKED 1 1 StatKind.RAW_RESULT 0 0,
         SqlStat.mk 2 Correctness.NOT_CHECKED 1 1 StatKind.RAW_RESULT 0 1]).getD 3
        dummyStat).time = 5 ∧
    ([SqlStat.mk 1 Correctness.NOT_CHECKED 1 1 StatKind.RAW_RESULT 0 0,
      SqlStat.mk 2 Correctness.NOT_CHECKED 1 1 StatKind.RAW_RESULT 0 1].map
        SqlStat.time).sum = 3 ∧ (5 : Nat) ≠ 3 := by decide

/-- Claim C2 (amended): the appended MULTI_ITERATION_SUM record (at
position n + 1 of the trial output) carries the raw total PLUS the median
record duration, because HarnessBFS::benchmark accumulates over the list
after the median record has been pushed onto it. -/
theorem sum_record_total (run : Run) (t : Nat) (raw : List SqlStat) :
    ((benchmarkTrial run t raw).getD (raw.length + 1) dummyStat).time =
      (raw.map SqlStat.time).sum +
        ((benchmarkTrial run t raw).getD raw.length dummyStat).time := by
  have hlen : (sortByTime raw).length = raw.length := (perm_sortByTime raw).length_eq
  have hsum : ((sortByTime raw).map SqlStat.time).sum = (raw.map SqlStat.time).sum :=
    ((perm_sortByTime raw).map SqlStat.time).sum_eq
  simp only [benchmarkTrial, List.append_assoc, List.cons_append, List.nil_append]
  rw [← hlen]
  rw [(getD_append_pair (sortByTime raw) _ _ dummyStat).2]
  rw [(getD_append_pair (sortByTime raw) _ _ dummyStat).1]
  rw [foldl_time]
  simp only [List.map_append, List.sum_append, List.map_cons, List.map_nil,
    List.sum_cons, List.sum_nil]
  rw [hsum]
  omega

/-- Claim C1: should_terminate_iteration returns true iff, reinterpreting
both host shadow byte buffers as vectors of 4-byte integers, every paired
element from position 0 up to the shorter length is exactly equal, with
no tolerance applied; being a plain function of the two buffers, its
verdict depends on their byte contents and nothing else. -/
theorem should_terminate_iteration_iff (input output : List Nat) :
    should_terminate_iteration input output = true ↔
      ∀ i, i < min (toInts input).length (toInts output).length →
        (toInts input).getD i 0 = (toInts output).getD i 0 := by
  unfold should_terminate_iteration
  exact eqLoop_iff (toInts input) (toInts output)

theorem traj_shift (K : List Nat → List Nat) (a : List Nat) :
    ∀ j, traj K (K a) j = traj K a (j + 1) := by
  intro j
  induction j with
  | zero => rfl
  | succ j ih => simp only [traj, ih]

theorem executeRunLoop_ne_nil (K : List Nat → List Nat) (times : Nat → Nat)
    (run : Run) (trial : Nat) : ∀ fuel input iteration l,
    executeRunLoop K times run trial fuel input iteration = some l → l ≠ [] := by
  intro fuel
  induction fuel with
  | zero =>
    intro input it l hl
    simp [executeRunLoop] at hl
  | succ f ih =>
    intro input it l hl
    rw [executeRunLoop] at hl
    by_cases hterm : should_terminate_iteration input (K input) = true
    · rw [if_pos hterm] at hl
      cases hl
      simp
    · rw [if_neg hterm] at hl
      cases hrec : executeRunLoop K times run trial f (K input) (it + 1) with
      | none => rw [hrec] at hl; cases hl
      | some rest =>
        rw [hrec] at hl
        cases hl
        simp

theorem executeRunLoop_length_first (K : List Nat → List Nat) (times : Nat → Nat)
    (run : Run) (trial : Nat) :
    ∀ k input iteration fuel, k + 1 ≤ fuel →
    should_terminate_iteration (traj K input k) (traj K input (k + 1)) = true →
    (∀ j, j < k → should_terminate_iteration (traj K input j) (traj K input (j + 1)) = false) →
    ∃ l, executeRunLoop K times run trial fuel input iteration = some l ∧
      l.length = k + 1 ∧ ∀ s ∈ l, s.kind = StatKind.RAW_RESULT := by
  intro k
  induction k with
  | zero =>
    intro input it fuel hf hterm _
    cases fuel with
    | zero => omega
    | succ f =>
      refine ⟨[SqlStat.mk (times it) Correctness.NOT_CHECKED run.global1 run.local1
        StatKind.RAW_RESULT trial it], ?_, by simp, by simp⟩
      rw [executeRunLoop,
        if_pos (show should_terminate_iteration input (K input) = true from hterm)]
  | succ k ih =>
    intro input it fuel hf hterm hmin
    cases fuel with
    | zero => omega
    | succ f =>
      have h0 : should_terminate_iteration input (K input) = false := hmin 0 k.succ_pos
      have hterm2 : should_terminate_iteration (traj K (K input) k)
          (traj K (K input) (k + 1)) = true := by
        rw [traj_shift, traj_shift]; exact hterm
      have hmin2 : ∀ j, j < k → should_terminate_iteration (traj K (K input) j)
          (traj K (K input) (j + 1)) = false := by
        intro j hj
        rw [traj_shift, traj_shift]
        exact hmin (j + 1) (by omega)
      obtain ⟨rest, hrest, hlen, hkind⟩ :=
        ih (K input) (it + 1) f (by omega) hterm2 hmin2
      refine ⟨SqlStat.mk (times it) Correctness.NOT_CHECKED run.global1 run.local1
        StatKind.RAW_RESULT trial it :: rest, ?_, by simp [hlen], ?_⟩
      · rw [executeRunLoop, if_neg (by simp [h0]), hrest]
      · intro s hs
        rcases List.mem_cons.mp hs with rfl | hs2
        · rfl
        · exact hkind s hs2

/-- Claim C7: when the kernel output first equals its input after
iteration k (1-based, k at least 1), the executor loop terminates at
iteration k and the trial contains exactly k raw timing records, not
k + 1. -/
theorem convergence_exact_records (K : List Nat → List Nat) (times : Nat → Nat)
    (run : Run) (trial : Nat) (a0 : List Nat) (k fuel : Nat) (hk : 1 ≤ k)
    (hf : k ≤ fuel)
    (hterm : should_terminate_iteration (traj K a0 (k - 1)) (traj K a0 k) = true)
    (hmin : ∀ j, j + 1 < k →
      should_terminate_iteration (traj K a0 j) (traj K a0 (j + 1)) = false) :
    ∃ l, executeRunLoop K times run trial fuel a0 0 = some l ∧ l.length = k ∧
      ∀ s ∈ l, s.kind = StatKind.RAW_RESULT := by
  obtain ⟨k2, rfl⟩ : ∃ k2, k = k2 + 1 := ⟨k - 1, by omega⟩
  exact executeRunLoop_length_first K times run trial k2 a0 0 fuel hf
    (by simpa using hterm) (fun j hj => hmin j (by omega))

/-- Witness for C7: a kernel that maps every buffer to the byte encoding
of the int 1, started on the encoding of 0, converges at iteration 2 and
yields exactly 2 raw records. -/
theorem convergence_exact_records_witness :
    ∃ l, executeRunLoop (fun _ => [1, 0, 0, 0]) (fun _ => 5) (Run.mk 1 1) 0 2
        [0, 0, 0, 0] 0 = some l ∧ l.length = 2 ∧
      ∀ s ∈ l, s.kind = StatKind.RAW_RESULT := by
  refine convergence_exact_records (fun _ => [1, 0, 0, 0]) (fun _ => 5) (Run.mk 1 1) 0
    [0, 0, 0, 0] 2 2 (by decide) (by decide) (by decide) ?_
  intro j hj
  have hj0 : j = 0 := by omega
  subst hj0
  decide

theorem executeRunLoop_some_check_true (K : List Nat → List Nat) (times : Nat → Nat)
    (run : Run) (trial : Nat) : ∀ fuel input iteration l,
    executeRunLoop K times run trial fuel input iteration = some l →
    ∃ i, should_terminate_iteration (traj K input i) (traj K input (i + 1)) = true := by
  intro fuel
  induction fuel with
  | zero =>
    intro input it l hl
    simp [executeRunLoop] at hl
  | succ f ih =>
    intro input it l hl
    by_cases hterm : should_terminate_iteration input (K input) = true
    · exact ⟨0, hterm⟩
    · rw [executeRunLoop, if_neg hterm] at hl
      cases hrec : executeRunLoop K times run trial f (K input) (it + 1) with
      | none => rw [hrec] at hl; cases hl
      | some rest =>
        obtain ⟨i, hi⟩ := ih (K input) (it + 1) rest hrec
        rw [traj_shift, traj_shift] at hi
        exact ⟨i + 1, hi⟩

theorem executeRunLoop_check_true_some (K : List Nat → List Nat) (times : Nat → Nat)
    (run : Run) (trial : Nat) : ∀ i input iteration,
    should_terminate_iteration (traj K input i) (traj K input (i + 1)) = true →
    ∃ l, executeRunLoop K times run trial (i + 1) input iteration = some l := by
  intro i
  induction i with
  | zero =>
    intro input it h
    refine ⟨[SqlStat.mk (times it) Correctness.NOT_CHECKED run.global1 run.local1
      StatKind.RAW_RESULT trial it], ?_⟩
    rw [executeRunLoop,
      if_pos (show should_terminate_iteration input (K input) = true from h)]
  | succ i ih =>
    intro input it h
    by_cases h0 : should_terminate_iteration input (K input) = true
    · exact ⟨_, by rw [executeRunLoop, if_pos h0]⟩
    · have h2 : should_terminate_iteration (traj K (K input) i)
          (traj K (K input) (i + 1)) = true := by
        rw [traj_shift, traj_shift]; exact h
      obtain ⟨rest, hrest⟩ := ih (K input) (it + 1) h2
      exact ⟨_, by rw [executeRunLoop, if_neg h0, hrest]⟩

/-- Claim C9: the executor loop exits only through the termination
equality check: it terminates (under some fuel) iff
should_terminate_iteration eventually returns true along the kernel
trajectory; when the check never returns true no fuel bound yields an
exit (the code has no iteration ceiling and never compares the timeout
inside the loop), and when it first returns true the loop terminates at
that iteration. -/
theorem loop_terminates_iff (K : List Nat → List Nat) (times : Nat → Nat)
    (run : Run) (trial : Nat) (a0 : List Nat) (iteration : Nat) :
    (∃ fuel l, executeRunLoop K times run trial fuel a0 iteration = some l) ↔
      (∃ i, should_terminate_iteration (traj K a0 i) (traj K a0 (i + 1)) = true) := by
  constructor
  · rintro ⟨fuel, l, hl⟩
    exact executeRunLoop_some_check_true K times run trial fuel a0 iteration l hl
  · rintro ⟨i, hi⟩
    obtain ⟨l, hl⟩ := executeRunLoop_check_true_some K times run trial i a0 iteration hi
    exact ⟨i + 1, l, hl⟩

/-- Claim C10: the loop is do-while, so every successful executeRun
contains at least one raw timing record even when the two shadow buffers
are already equal on entry, and in benchmark the median index
length / 2 into the sorted (equal-length) list is in bounds. -/
theorem executeRun_nonempty (K : List Nat → List Nat) (times : Nat → Nat)
    (run : Run) (trial fuel iteration : Nat) (a0 : List Nat) (l : List SqlStat)
    (h : executeRunLoop K times run trial fuel a0 iteration = some l) :
    1 ≤ l.length ∧ (sortByTime l).length / 2 < (sortByTime l).length := by
  have hne : l ≠ [] := executeRunLoop_ne_nil K times run trial fuel a0 iteration l h
  have hpos : 0 < l.length := List.length_pos.mpr hne
  have hlen : (sortByTime l).length = l.length := (perm_sortByTime l).length_eq
  constructor
  · omega
  · refine Nat.div_lt_self ?_ one_lt_two
    omega

/-- Witness for C10: the identity kernel on an empty buffer terminates at
once with exactly one raw record. -/
theorem executeRun_nonempty_witness :
    1 ≤ [SqlStat.mk 7 Correctness.NOT_CHECKED 1 1 StatKind.RAW_RESULT 0 0].length ∧
      (sortByTime [SqlStat.mk 7 Correctness.NOT_CHECKED 1 1
        StatKind.RAW_RESULT 0 0]).length / 2 <
      (sortByTime [SqlStat.mk 7 Correctness.NOT_CHECKED 1 1
        StatKind.RAW_RESULT 0 0]).length :=
  executeRun_nonempty (fun v => v) (fun _ => 7) (Run.mk 1 1) 0 1 0 [] _ (by decide)

theorem swapN_eq {α : Type} : ∀ (n : Nat) (a b : α),
    swapN n (a, b) = if n % 2 = 0 then (a, b) else (b, a) := by
  intro n
  induction n with
  | zero => intro a b; simp [swapN]
  | succ n ih =>
    intro a b
    have hstep : swapN (n + 1) (a, b) = swapN n (b, a) := rfl
    rw [hstep, ih b a]
    by_cases h : n % 2 = 0
    · rw [if_pos h, if_neg (by omega)]
    · rw [if_neg h, if_pos (by omega)]

/-- Claim C8: after N role swaps, the handle originally holding the input
role occupies the output role iff N is odd and the input role iff N is
even; two swaps restore the original assignment (the swap exchanges
identities, not contents, and has period 2). -/
theorem role_swap_parity {α : Type} (a b : α) (hab : a ≠ b) (n : Nat) :
    ((swapN n (a, b)).2 = a ↔ n % 2 = 1) ∧
      ((swapN n (a, b)).1 = a ↔ n % 2 = 0) ∧ swapN 2 (a, b) = (a, b) := by
  rw [swapN_eq n a b]
  by_cases h : n % 2 = 0
  · rw [if_pos h]
    refine ⟨?_, ?_, rfl⟩
    · constructor
      · intro hba; exact absurd hba (Ne.symm hab)
      · intro h1; omega
    · constructor
      · intro _; exact h
      · intro _; rfl
  · rw [if_neg h]
    refine ⟨?_, ?_, rfl⟩
    · constructor
      · intro _; omega
      · intro _; rfl
    · constructor
      · intro hba; exact absurd hba.symm hab
      · intro h0; exact absurd h0 h

/-- Witness for C8 with distinct handles 0 and 1 and N = 3 swaps. -/
theorem role_swap_parity_witness :
    ((swapN 3 ((0 : Nat), 1)).2 = 0 ↔ 3 % 2 = 1) ∧
      ((swapN 3 ((0 : Nat), 1)).1 = 0 ↔ 3 % 2 = 0) ∧
      swapN 2 ((0 : Nat), 1) = (0, 1) :=
  role_swap_parity 0 1 (by decide) 3

/-- Claim C3 counterexample: per iteration the executor rebinds three
argument slots, not two: besides the input slot (2) and the output slot
(6), slot 3 (the y vector) is also rebound, to the new input buffer, and
its binding actually changes. -/
theorem rebind_three_slots_counterexample :
    (iterationRebinds 10 20).map Prod.fst = [2, 6, 3] ∧
      (3 ≠ input_idx ∧ 3 ≠ output_idx) ∧
      applyBinds (fun _ => 99) (iterationRebinds 10 20) 3 = 10 ∧ (10 : Nat) ≠ 99 := by
  decide

/-- Claim C3 (amended): after every iteration exactly three argument
slots are rebound: the input slot receives the new input buffer, the
output slot receives the new output buffer, and slot 3 (the y vector)
also receives the new input buffer; every other slot keeps its previous
binding. -/
theorem rebind_slots (args : Nat → Nat) (i o slot : Nat)
    (h2 : slot ≠ input_idx) (h6 : slot ≠ output_idx) (h3 : slot ≠ 3) :
    applyBinds args (iterationRebinds i o) slot = args slot ∧
      applyBinds args (iterationRebinds i o) input_idx = i ∧
      applyBinds args (iterationRebinds i o) output_idx = o ∧
      applyBinds args (iterationRebinds i o) 3 = i ∧
      (iterationRebinds i o).map Prod.fst = [input_idx, output_idx, 3] := by
  rw [input_idx] at h2
  rw [output_idx] at h6
  refine ⟨?_, ?_, ?_, ?_, rfl⟩
  · simp [applyBinds, iterationRebinds, input_idx, output_idx, h2, h6, h3]
  · simp [applyBinds, iterationRebinds, input_idx, output_idx]
  · simp [applyBinds, iterationRebinds, input_idx, output_idx]
  · simp [applyBinds, iterationRebinds, input_idx, output_idx]

/-- Witness for C3 (amended) at slot 7 with fresh handles 10 and 20. -/
theorem rebind_slots_witness :
    applyBinds (fun _ => 99) (iterationRebinds 10 20) 7 = (fun _ => (99 : Nat)) 7 ∧
      applyBinds (fun _ => 99) (iterationRebinds 10 20) input_idx = 10 ∧
      applyBinds (fun _ => 99) (iterationRebinds 10 20) output_idx = 20 ∧
      applyBinds (fun _ => 99) (iterationRebinds 10 20) 3 = 10 ∧
      (iterationRebinds 10 20).map Prod.fst = [input_idx, output_idx, 3] :=
  rebind_slots (fun _ => 99) 10 20 7 (by decide) (by decide) (by decide)

theorem executeRunLoop_not_checked (K : List Nat → List Nat) (times : Nat → Nat)
    (run : Run) (trial : Nat) : ∀ fuel input iteration l,
    executeRunLoop K times run trial fuel input iteration = some l →
    ∀ s ∈ l, s.correctness = Correctness.NOT_CHECKED := by
  intro fuel
  induction fuel with
  | zero =>
    intro input it l hl
    simp [executeRunLoop] at hl
  | succ f ih =>
    intro input it l hl
    rw [executeRunLoop] at hl
    by_cases hterm : should_terminate_iteration input (K input) = true
    · rw [if_pos hterm] at hl
      cases hl
      intro s hs
      rcases List.mem_singleton.mp hs with rfl
      rfl
    · rw [if_neg hterm] at hl
      cases hrec : executeRunLoop K times run trial f (K input) (it + 1) with
      | none => rw [hrec] at hl; cases hl
      | some rest =>
        rw [hrec] at hl
        cases hl
        intro s hs
        rcases List.mem_cons.mp hs with rfl | hs2
        · rfl
        · exact ih (K input) (it + 1) rest hrec s hs2

theorem benchmarkTrial_not_checked (run : Run) (t : Nat) (raw : List SqlStat)
    (hraw : ∀ s ∈ raw, s.correctness = Correctness.NOT_CHECKED) :
    ∀ s ∈ benchmarkTrial run t raw, s.correctness = Correctness.NOT_CHECKED := by
  intro s hs
  simp only [benchmarkTrial, List.mem_append, List.mem_singleton] at hs
  rcases hs with (hs2 | rfl) | rfl
  · exact hraw s ((perm_sortByTime raw).mem_iff.mp hs2)
  · rfl
  · rfl

theorem benchmark_not_checked (K : List Nat → List Nat) (times : Nat → Nat → Nat)
    (run : Run) (input0 : List Nat) (fuel : Nat) : ∀ trials out,
    benchmark K times run input0 fuel trials = some out →
    ∀ l ∈ out, ∀ s ∈ l, s.correctness = Correctness.NOT_CHECKED := by
  intro trials
  induction trials with
  | zero =>
    intro out h
    rw [benchmark] at h
    cases h
    intro l hl
    simp at hl
  | succ t ih =>
    intro out h
    rw [benchmark] at h
    cases hprev : benchmark K times run input0 fuel t with
    | none => rw [hprev] at h; cases h
    | some prev =>
      cases hraw : executeRunLoop K (times t) run t fuel input0 0 with
      | none => rw [hprev, hraw] at h; cases h
      | some raw =>
        rw [hprev, hraw] at h
        cases h
        intro l hl
        rcases List.mem_append.mp hl with hl2 | hl2
        · exact ih prev hprev l hl2
        · rcases List.mem_singleton.mp hl2 with rfl
          exact benchmarkTrial_not_checked run t raw
            (executeRunLoop_not_checked K (times t) run t fuel input0 0 raw hraw)

/-- Claim C4 counterexample: a concrete benchmarked run whose final
output buffer (the byte encoding of int 1) matches the nonempty gold
vector [1], so check_result on it would return CORRECT, yet every record
produced by benchmark carries NOT_CHECKED: HarnessBFS::benchmark takes no
gold vector, never invokes the correctness checker, and produces no
per-run verdict. -/
theorem benchmark_verdict_counterexample :
    ∃ out, benchmark (fun _ => [1, 0, 0, 0]) (fun _ _ => 5) (Run.mk 1 1)
        [1, 0, 0, 0] 1 1 = some out ∧
      (∀ l ∈ out, ∀ s ∈ l, s.correctness = Correctness.NOT_CHECKED) ∧
      check_result [1] [1, 0, 0, 0] = (Correctness.CORRECT, []) := by
  refine ⟨[[SqlStat.mk 5 Correctness.NOT_CHECKED 1 1 StatKind.RAW_RESULT 0 0,
    SqlStat.mk 5 Correctness.NOT_CHECKED 1 1 StatKind.MEDIAN_RESULT 0 0,
    SqlStat.mk 10 Correctness.NOT_CHECKED 1 1 StatKind.MULTI_ITERATION_SUM 0 0]],
    by decide, by decide, by decide⟩

/-- Claim C4 (amended): HarnessBFS::benchmark takes no gold vector and
never invokes the correctness checker, so every timing record of every
trial carries the NOT_CHECKED verdict; check_result itself, given an
empty gold vector, does return NOT_CHECKED. -/
theorem benchmark_never_checks (K : List Nat → List Nat) (times : Nat → Nat → Nat)
    (run : Run) (input0 : List Nat) (fuel trials : Nat) (out : List (List SqlStat))
    (h : benchmark K times run input0 fuel trials = some out) :
    (∀ l ∈ out, ∀ s ∈ l, s.correctness = Correctness.NOT_CHECKED) ∧
      ∀ buf : List Nat, check_result [] buf = (Correctness.NOT_CHECKED, []) :=
  ⟨benchmark_not_checked K times run input0 fuel trials out h, fun _ => rfl⟩

/-- Witness for C4 (amended) at a concrete one-trial benchmark. -/
theorem benchmark_never_checks_witness :
    (∀ l ∈ [[SqlStat.mk 5 Correctness.NOT_CHECKED 1 1 StatKind.RAW_RESULT 0 0,
        SqlStat.mk 5 Correctness.NOT_CHECKED 1 1 StatKind.MEDIAN_RESULT 0 0,
        SqlStat.mk 10 Correctness.NOT_CHECKED 1 1 StatKind.MULTI_ITERATION_SUM 0 0]],
      ∀ s ∈ l, s.correctness = Correctness.NOT_CHECKED) ∧
      ∀ buf : List Nat, check_result [] buf = (Correctness.NOT_CHECKED, []) :=
  benchmark_never_checks (fun _ => [1, 0, 0, 0]) (fun _ _ => 5) (Run.mk 1 1)
    [1, 0, 0, 0] 1 1
    [[SqlStat.mk 5 Correctness.NOT_CHECKED 1 1 StatKind.RAW_RESULT 0 0,
      SqlStat.mk 5 Correctness.NOT_CHECKED 1 1 StatKind.MEDIAN_RESULT 0 0,
      SqlStat.mk 10 Correctness.NOT_CHECKED 1 1 StatKind.MULTI_ITERATION_SUM 0 0]]
    (by decide)

theorem countMismatches_ge (gs : List Nat) : ∀ rs c i, c ≤ (countMismatches gs rs c i).1 := by
  induction gs with
  | nil => intro rs c i; simp [countMismatches]
  | cons g gs ih =>
    intro rs c i
    cases rs with
    | nil => simp [countMismatches]
    | cons r rs =>
      rw [countMismatches]
      by_cases h : g = r
      · rw [if_neg (by simp [h])]
        exact ih rs c (i + 1)
      · rw [if_pos h]
        by_cases h20 : c + 1 = 20
        · rw [if_pos h20]; omega
        · rw [if_neg h20]
          have hrec := ih rs (c + 1) (i + 1)
          show c ≤ (countMismatches gs rs (c + 1) (i + 1)).1
          omega

theorem countMismatches_eq_iff (gs : List Nat) : ∀ rs c i, c < 20 →
    ((countMismatches gs rs c i).1 = c ↔
      ∀ j, j < min gs.length rs.length → gs.getD j 0 = rs.getD j 0) := by
  induction gs with
  | nil => intro rs c i _; simp [countMismatches]
  | cons g gs ih =>
    intro rs c i hc
    cases rs with
    | nil => simp [countMismatches]
    | cons r rs =>
      rw [countMismatches]
      by_cases h : g = r
      · subst h
        rw [if_neg (by simp)]
        rw [ih rs c (i + 1) hc]
        constructor
        · intro hall j hj
          cases j with
          | zero => rfl
          | succ j2 =>
            have hj2 : j2 < min gs.length rs.length := by
              simp only [List.length_cons, Nat.lt_min] at hj ⊢
              omega
            simpa using hall j2 hj2
        · intro hall j hj
          have hjj : j + 1 < min (g :: gs).length (g :: rs).length := by
            simp only [List.length_cons, Nat.lt_min] at hj ⊢
            omega
          simpa using hall (j + 1) hjj
      · rw [if_pos h]
        constructor
        · intro heq
          exfalso
          by_cases h20 : c + 1 = 20
          · rw [if_pos h20] at heq
            have heq2 : c + 1 = c := heq
            omega
          · rw [if_neg h20] at heq
            have hge := countMismatches_ge gs rs (c + 1) (i + 1)
            have heq2 : (countMismatches gs rs (c + 1) (i + 1)).1 = c := heq
            omega
        · intro hall
          exact absurd (by simpa using hall 0 (by simp [Nat.lt_min])) h

theorem countMismatches_log_le (gs : List Nat) : ∀ rs c i, c < 20 →
    (countMismatches gs rs c i).2.length ≤ 20 - c := by
  induction gs with
  | nil => intro rs c i _; simp [countMismatches]
  | cons g gs ih =>
    intro rs c i hc
    cases rs with
    | nil => simp [countMismatches]
    | cons r rs =>
      rw [countMismatches]
      by_cases h : g = r
      · rw [if_neg (by simp [h])]
        exact ih rs c (i + 1) hc
      · rw [if_pos h]
        by_cases h20 : c + 1 = 20
        · rw [if_pos h20]
          show ([i] : List Nat).length ≤ 20 - c
          simp
          omega
        · rw [if_neg h20]
          have hrec := ih rs (c + 1) (i + 1) (by omega)
          show (countMismatches gs rs (c + 1) (i + 1)).2.length + 1 ≤ 20 - c
          omega

theorem getD_take_eq (l : List Nat) (n j : Nat) (hj : j < n) (hl : j < l.length) :
    (l.take n).getD j 0 = l.getD j 0 := by
  rw [List.getD_eq_getElem _ _ (by rw [List.length_take]; exact lt_min hj hl)]
  rw [List.getD_eq_getElem _ _ hl]
  simp

/-- Claim C6: check_result returns NOT_CHECKED for an empty gold vector;
BAD_LENGTH when the output buffer holds fewer int elements than gold;
otherwise it compares the first gold-length positions in order, logs at
most 20 mismatches, and returns BAD_VALUES iff at least one mismatch
occurred, else CORRECT. -/
theorem check_result_spec (gold bytes : List Nat) :
    (gold = [] → check_result gold bytes = (Correctness.NOT_CHECKED, [])) ∧
    (gold ≠ [] → (toInts bytes).length < gold.length →
      check_result gold bytes = (Correctness.BAD_LENGTH, [])) ∧
    (gold ≠ [] → gold.length ≤ (toInts bytes).length →
      ((check_result gold bytes).2.length ≤ 20 ∧
       ((check_result gold bytes).1 = Correctness.BAD_VALUES ↔
         ∃ j, j < gold.length ∧ gold.getD j 0 ≠ (toInts bytes).getD j 0) ∧
       ((check_result gold bytes).1 = Correctness.CORRECT ↔
         ∀ j, j < gold.length → gold.getD j 0 = (toInts bytes).getD j 0))) := by
  refine ⟨?_, ?_, ?_⟩
  · intro h; subst h; rfl
  · intro hne hlt
    rw [check_result, if_neg (by simpa [List.length_eq_zero] using hne), if_pos hlt]
  · intro hne hge
    have hne0 : ¬ gold.length = 0 := by simpa [List.length_eq_zero] using hne
    have hnlt : ¬ (toInts bytes).length < gold.length := by omega
    have hcr : check_result gold bytes =
        (if 0 < (countMismatches gold ((toInts bytes).take gold.length) 0 0).1
         then (Correctness.BAD_VALUES,
           (countMismatches gold ((toInts bytes).take gold.length) 0 0).2)
         else (Correctness.CORRECT,
           (countMismatches gold ((toInts bytes).take gold.length) 0 0).2)) := by
      rw [check_result, if_neg hne0, if_neg hnlt]
    have hmin : min gold.length ((toInts bytes).take gold.length).length = gold.length := by
      rw [List.length_take]
      omega
    have hgetD : ∀ j, j < gold.length →
        ((toInts bytes).take gold.length).getD j 0 = (toInts bytes).getD j 0 := by
      intro j hj
      exact getD_take_eq (toInts bytes) gold.length j hj (by omega)
    have hiffA : (countMismatches gold ((toInts bytes).take gold.length) 0 0).1 = 0 ↔
        ∀ j, j < gold.length → gold.getD j 0 = (toInts bytes).getD j 0 := by
      rw [countMismatches_eq_iff gold ((toInts bytes).take gold.length) 0 0 (by omega)]
      constructor
      · intro hall j hj
        rw [← hgetD j hj]
        exact hall j (by omega)
      · intro hall j hj
        rw [hmin] at hj
        rw [hgetD j hj]
        exact hall j hj
    have hlog : (countMismatches gold ((toInts bytes).take gold.length) 0 0).2.length ≤ 20 := by
      simpa using countMismatches_log_le gold ((toInts bytes).take gold.length) 0 0 (by omega)
    by_cases hpos : 0 < (countMismatches gold ((toInts bytes).take gold.length) 0 0).1
    · rw [hcr, if_pos hpos]
      refine ⟨hlog, ?_, ?_⟩
      · constructor
        · intro _
          by_contra hno
          push_neg at hno
          exact absurd (hiffA.mpr hno) (by omega)
        · intro _; rfl
      · constructor
        · intro hbad; exact Correctness.noConfusion hbad
        · intro hall
          exact absurd (hiffA.mpr hall) (by omega)
    · rw [hcr, if_neg hpos]
      have h0 : (countMismatches gold ((toInts bytes).take gold.length) 0 0).1 = 0 := by
        omega
      refine ⟨hlog, ?_, ?_⟩
      · constructor
        · intro hbad; exact Correctness.noConfusion hbad
        · rintro ⟨j, hj, hne2⟩
          exact absurd (hiffA.mp h0 j hj) hne2
      · constructor
        · intro _; exact hiffA.mp h0
        · intro _; rfl

/-- Witness for C6 at the spec examples: gold [1,2,3] against output
[1,9,3] gives BAD_VALUES with a mismatch at index 1, gold [1,2,3]
against the two-element output [1,2] gives BAD_LENGTH, and an empty gold
gives NOT_CHECKED. -/
theorem check_result_spec_witness :
    (check_result [1, 2, 3] [1, 0, 0, 0, 9, 0, 0, 0, 3, 0, 0, 0]).1 =
        Correctness.BAD_VALUES ∧
      check_result [1, 2, 3] [1, 0, 0, 0, 2, 0, 0, 0] = (Correctness.BAD_LENGTH, []) ∧
      check_result [] [1, 0, 0, 0] = (Correctness.NOT_CHECKED, []) := by
  refine ⟨?_, ?_, ?_⟩
  · exact ((check_result_spec [1, 2, 3]
      [1, 0, 0, 0, 9, 0, 0, 0, 3, 0, 0, 0]).2.2 (by decide) (by decide)).2.1.mpr
      ⟨1, by decide, by decide⟩
  · exact (check_result_spec [1, 2, 3] [1, 0, 0, 0, 2, 0, 0, 0]).2.1
      (by decide) (by decide)
  · exact (check_result_spec [] [1, 0, 0, 0]).1 rfl

end SpmvHarness
